import Mathlib

/-!
# Verification of the mapiproxy core against its specification

Shallow embedding of the mapiproxy repository (an intercepting proxy for the
MonetDB MAPI wire protocol) in Lean 4.  Each definition is translated from
the corresponding Rust source file, keeping the source's names and control
flow; bytes are modelled as `Nat` (with `< 256` hypotheses where the numeric
value matters), machine integers as `Nat` with explicit `% 2^w` where the
source relies on wrapping, and fallible code as `Except`.

Sections follow the source layout:
* `Mapi`   — `src/mapi/analyzer.rs` (the framing analyzer)
* `Fwd`    — `src/proxy/forward.rs` and `src/proxy/mod.rs` (the forwarder)
* `Pcap`   — `src/pcap/tcp.rs` and `src/pcap/mod.rs` (the pcap reassembler)
* `Net`    — `src/proxy/network.rs` (address parsing)
-/

namespace Mapi

/-- The framing analyzer state machine, from `src/mapi/analyzer.rs`
(`enum Analyzer`).  Field order: `Head { boundary, was_body }`,
`PartialHead { byte1 }`, `Body { still_needed, len, last }`. -/
inductive Analyzer where
  | Head (boundary : Bool) (was_body : Bool)
  | PartialHead (byte1 : Nat)
  | Body (still_needed : Nat) (len : Nat) (last : Bool)
  | Unix0
  | Error
  deriving DecidableEq, Repr

namespace Analyzer

/-- `Analyzer::new` from `src/mapi/analyzer.rs`. -/
def new (unix_client : Bool) : Analyzer :=
  if unix_client then .Unix0 else .Head true false

/-- `Analyzer::parse_header` from `src/mapi/analyzer.rs`: the two header
bytes are combined little-endian into `n`; `len = n / 2`; if `len ≤ 8190`
the analyzer starts reading a body, otherwise it enters `Error`.
Faithful to the `u16` arithmetic of the source whenever both bytes are
`u8` values (i.e. `< 256`). -/
def parse_header (byte1 byte2 : Nat) : Analyzer :=
  let n := byte1 + 256 * byte2
  let len := n / 2
  if len ≤ 8190 then
    .Body len len (n % 2 == 1)
  else
    .Error

/-- `Analyzer::analyze` from `src/mapi/analyzer.rs`: decide how many of the
next bytes form one classification step and compute the successor state.
The match arms appear in the same order as in the source; the `Body` guard
`*still_needed as usize <= data.len()` becomes the `if` in the `Body` arm,
and the `u16::try_from(data.len()).unwrap_or(u16::MAX)` in the `Error` arm
becomes `min data.length 65535`. -/
def analyze : Analyzer → List Nat → Option (Nat × Analyzer)
  | .Head _ _, byte1 :: byte2 :: _ => some (2, parse_header byte1 byte2)
  | .Head _ _, [byte1] => some (1, .PartialHead byte1)
  | .PartialHead byte1, byte2 :: _ => some (1, parse_header byte1 byte2)
  | .Body still_needed len last, data =>
      if still_needed ≤ data.length then
        some (still_needed, .Head last true)
      else
        match data with
        | [] => none
        | _ :: _ => some (data.length, .Body (still_needed - data.length) len last)
  | _, [] => none
  | .Error, data => some (min data.length 65535, .Error)
  | .Unix0, b :: _ =>
      if b = 0x30 then some (1, .Head true false) else some (1, .Error)

/-- `Analyzer::split_chunk` from `src/mapi/analyzer.rs`: split off the prefix
measured by `analyze`.  Returns the consumed prefix, the remaining bytes and
the successor state (the Rust method mutates `self` and the slice in place). -/
def split_chunk (st : Analyzer) (data : List Nat) :
    Option (List Nat × List Nat × Analyzer) :=
  match analyze st data with
  | some (n, st') => some (data.take n, data.drop n, st')
  | none => none

/-- `Analyzer::check_incomplete` from `src/mapi/analyzer.rs`. -/
def check_incomplete : Analyzer → Except String Unit
  | .Head true _ => .ok ()
  | .Head false _ => .error "on a block boundary but not on a message boundary"
  | .PartialHead _ => .error "in the middle of the header block"
  | .Body _ _ false => .error "in the middle of a block"
  | .Body _ _ true => .error "in the middle of the last block of the message"
  | .Error => .ok ()
  | .Unix0 => .ok ()

/-- Termination measure for repeated `split_chunk` calls: every step either
consumes at least one byte or moves from a `Body` state with
`still_needed = 0` to a `Head` state. -/
def chunkMeasure (st : Analyzer) (data : List Nat) : Nat :=
  2 * data.length + match st with
    | .Body 0 _ _ => 1
    | _ => 0

theorem chunkMeasure_le (st : Analyzer) (d : List Nat) :
    chunkMeasure st d ≤ 2 * d.length + 1 := by
  unfold chunkMeasure
  split <;> omega

theorem le_chunkMeasure (st : Analyzer) (d : List Nat) :
    2 * d.length ≤ chunkMeasure st d := by
  unfold chunkMeasure
  split <;> omega

/-- `analyze` never reports more bytes than are available, and the only step
that consumes zero bytes is finishing a body whose `still_needed` is `0`. -/
theorem analyze_take_bounds {st : Analyzer} {data : List Nat} {n : Nat}
    {st' : Analyzer} (h : analyze st data = some (n, st')) :
    n ≤ data.length ∧
      (n = 0 → ∃ l la, st = .Body 0 l la ∧ st' = .Head la true) := by
  cases st with
  | Head bd wb =>
    match data with
    | [] => simp [analyze] at h
    | [b1] =>
      simp [analyze] at h
      obtain ⟨rfl, rfl⟩ := h
      simp
    | b1 :: b2 :: tl =>
      simp [analyze] at h
      obtain ⟨rfl, rfl⟩ := h
      simp
  | PartialHead b1 =>
    match data with
    | [] => simp [analyze] at h
    | b2 :: tl =>
      simp [analyze] at h
      obtain ⟨rfl, rfl⟩ := h
      simp
  | Body s l la =>
    simp only [analyze] at h
    split at h
    · rename_i hle
      simp at h
      obtain ⟨rfl, rfl⟩ := h
      refine ⟨hle, ?_⟩
      rintro rfl
      exact ⟨l, la, rfl, rfl⟩
    · match data with
      | [] => simp at h
      | b :: tl =>
        simp at h
        obtain ⟨rfl, rfl⟩ := h
        simp
  | Unix0 =>
    match data with
    | [] => simp [analyze] at h
    | b :: tl =>
      simp only [analyze] at h
      split at h <;>
        · simp at h
          obtain ⟨rfl, rfl⟩ := h
          simp
  | Error =>
    match data with
    | [] => simp [analyze] at h
    | b :: tl =>
      simp [analyze] at h
      obtain ⟨rfl, rfl⟩ := h
      refine ⟨?_, ?_⟩
      · simp only [List.length_cons]
        omega
      · intro h0
        exfalso
        omega

/-- `analyze` returns `none` exactly on empty input, except that a `Body`
state with `still_needed = 0` still performs one zero-byte step. -/
theorem analyze_none_iff (st : Analyzer) (data : List Nat) :
    analyze st data = none ↔
      data = [] ∧ ∀ len last, st ≠ .Body 0 len last := by
  cases st with
  | Head bd wb =>
    cases data with
    | nil => simp [analyze]
    | cons b tl => cases tl <;> simp [analyze]
  | PartialHead b1 =>
    cases data with
    | nil => simp [analyze]
    | cons b tl => simp [analyze]
  | Body s l la =>
    cases data with
    | nil =>
      by_cases hs : s = 0
      · subst hs
        constructor
        · intro h
          simp [analyze] at h
        · rintro ⟨-, hne⟩
          exact absurd rfl (hne l la)
      · have hnle : ¬ (s ≤ ([] : List Nat).length) := by simp; omega
        constructor
        · intro _
          refine ⟨rfl, ?_⟩
          intro len last heq
          cases heq
          exact hs rfl
        · intro _
          simp [analyze, hs]
    | cons b tl =>
      constructor
      · intro h
        simp only [analyze] at h
        split at h <;> simp at h
      · rintro ⟨h, -⟩
        simp at h
  | Unix0 =>
    cases data with
    | nil => simp [analyze]
    | cons b tl =>
      constructor
      · intro h
        simp only [analyze] at h
        split at h <;> simp at h
      · rintro ⟨h, -⟩
        simp at h
  | Error =>
    cases data with
    | nil => simp [analyze]
    | cons b tl => simp [analyze]

theorem split_chunk_measure {st : Analyzer} {data pre rest : List Nat}
    {st' : Analyzer} (h : split_chunk st data = some (pre, rest, st')) :
    chunkMeasure st' rest < chunkMeasure st data := by
  unfold split_chunk at h
  cases hana : analyze st data with
  | none => rw [hana] at h; exact absurd h (by simp)
  | some v =>
    obtain ⟨n, stn⟩ := v
    rw [hana] at h
    simp at h
    obtain ⟨hpre, hrest, hst⟩ := h
    subst hpre hrest hst
    obtain ⟨hle, hzero⟩ := analyze_take_bounds hana
    rcases Nat.eq_zero_or_pos n with hn | hn
    · obtain ⟨l, la, hst, hst'⟩ := hzero hn
      subst hst hst' hn
      simp [chunkMeasure]
    · have h1 := chunkMeasure_le stn (data.drop n)
      have h2 := le_chunkMeasure st data
      simp [List.length_drop] at h1
      omega

/-- Iterate `split_chunk` until it returns `none`, collecting the chunks
(the way `MapiReader`/the accumulator drive the analyzer).  Total because
every step decreases `chunkMeasure`. -/
def drainChunks (st : Analyzer) (data : List Nat) : List (List Nat) × Analyzer :=
  match h : split_chunk st data with
  | none => ([], st)
  | some (pre, rest, st') =>
    let r := drainChunks st' rest
    (pre :: r.1, r.2)
termination_by chunkMeasure st data
decreasing_by exact split_chunk_measure h

theorem split_chunk_append {st : Analyzer} {data pre rest : List Nat}
    {st' : Analyzer} (h : split_chunk st data = some (pre, rest, st')) :
    pre ++ rest = data := by
  unfold split_chunk at h
  cases hana : analyze st data with
  | none => rw [hana] at h; exact absurd h (by simp)
  | some v =>
    obtain ⟨n, stn⟩ := v
    rw [hana] at h
    simp at h
    obtain ⟨hpre, hrest, _⟩ := h
    subst hpre hrest
    exact List.take_append_drop n data

theorem split_chunk_none_iff (st : Analyzer) (data : List Nat) :
    split_chunk st data = none ↔ analyze st data = none := by
  unfold split_chunk
  cases analyze st data with
  | none => simp
  | some v => obtain ⟨n, stn⟩ := v; simp

theorem split_chunk_none_nil {st : Analyzer} {data : List Nat}
    (h : split_chunk st data = none) : data = [] := by
  rw [split_chunk_none_iff] at h
  exact ((analyze_none_iff st data).mp h).1

theorem drainChunks_eq_none {st : Analyzer} {data : List Nat}
    (h : split_chunk st data = none) : drainChunks st data = ([], st) := by
  rw [drainChunks.eq_def]
  split
  · rfl
  · rename_i heq
    rw [h] at heq
    exact absurd heq (by simp)

theorem drainChunks_eq_some {st : Analyzer} {data pre rest : List Nat}
    {st' : Analyzer} (h : split_chunk st data = some (pre, rest, st')) :
    drainChunks st data =
      (pre :: (drainChunks st' rest).1, (drainChunks st' rest).2) := by
  rw [drainChunks.eq_def]
  split
  · rename_i heq
    rw [h] at heq
    exact absurd heq (by simp)
  · rename_i pre2 rest2 st2 heq
    rw [h] at heq
    simp at heq
    obtain ⟨h1, h2, h3⟩ := heq
    subst h1
    subst h2
    subst h3
    rfl

theorem drainChunks_join (st : Analyzer) (data : List Nat) :
    ((drainChunks st data).1).flatten = data := by
  induction st, data using drainChunks.induct with
  | case1 st data h =>
    rw [drainChunks_eq_none h]
    have := split_chunk_none_nil h
    subst this
    rfl
  | case2 st data pre rest st' h ih =>
    rw [drainChunks_eq_some h]
    simpa [ih] using split_chunk_append h

theorem drainChunks_final (st : Analyzer) (data : List Nat) :
    split_chunk (drainChunks st data).2 [] = none := by
  induction st, data using drainChunks.induct with
  | case1 st data h =>
    rw [drainChunks_eq_none h]
    have := split_chunk_none_nil h
    subst this
    exact h
  | case2 st data pre rest st' h ih =>
    rw [drainChunks_eq_some h]
    exact ih

/-- **C1.** Two header bytes consumed in `Head` or `PartialHead` are read
little-endian as `n = b1 + 256*b2` (a 16-bit value since both bytes are
`u8`), `len = n >> 1`, `last_flag = n & 1`; `len > 8190` enters `Error`,
otherwise the analyzer reads a body of exactly `len` bytes with that last
flag (consuming partial bodies chunk by chunk); a `len == 0 && last == 0`
header is accepted and the follow-up step returns to `Head` consuming no
body bytes. -/
theorem claim_header_parsing (bd wb : Bool) (b1 b2 : Nat)
    (hb1 : b1 < 256) (hb2 : b2 < 256) :
    b1 + 256 * b2 < 65536 ∧
    (∀ rest, analyze (.Head bd wb) (b1 :: b2 :: rest) =
        some (2, parse_header b1 b2)) ∧
    (∀ rest, analyze (.PartialHead b1) (b2 :: rest) =
        some (1, parse_header b1 b2)) ∧
    (8190 < (b1 + 256 * b2) / 2 → parse_header b1 b2 = .Error) ∧
    ((b1 + 256 * b2) / 2 ≤ 8190 →
        parse_header b1 b2 =
          .Body ((b1 + 256 * b2) / 2) ((b1 + 256 * b2) / 2)
            ((b1 + 256 * b2) % 2 == 1)) ∧
    (∀ (len L : Nat) (last : Bool) (data : List Nat), len ≤ data.length →
        analyze (.Body len L last) data = some (len, .Head last true)) ∧
    (∀ (len L : Nat) (last : Bool) (data : List Nat),
        data ≠ [] → data.length < len →
        analyze (.Body len L last) data =
          some (data.length, .Body (len - data.length) L last)) ∧
    ((b1 + 256 * b2) / 2 = 0 → (b1 + 256 * b2) % 2 = 0 →
        parse_header b1 b2 = .Body 0 0 false ∧
        ∀ data, analyze (.Body 0 0 false) data = some (0, .Head false true)) := by
  refine ⟨by omega, fun rest => rfl, fun rest => rfl, ?_, ?_, ?_, ?_, ?_⟩
  · intro h
    simp [parse_header, show ¬ ((b1 + 256 * b2) / 2 ≤ 8190) from by omega]
  · intro h
    simp [parse_header, h]
  · intro len L last data hle
    simp [analyze, hle]
  · intro len L last data hne hlt
    match data with
    | d :: tl =>
      simp only [analyze]
      rw [if_neg (by simp at hlt ⊢; omega)]
  · intro hlen hpar
    have hn : b1 + 256 * b2 = 0 := by omega
    have hb : b1 = 0 ∧ b2 = 0 := by omega
    obtain ⟨rfl, rfl⟩ := hb
    refine ⟨by simp [parse_header], ?_⟩
    intro data
    simp [analyze]

theorem claim_header_parsing_witness :
    (2 : Nat) < 256 ∧ (0 : Nat) < 256 ∧
      analyze (.Head true false) [2, 0, 104] = some (2, parse_header 2 0) :=
  ⟨by decide, by decide,
    (claim_header_parsing true false 2 0 (by decide) (by decide)).2.1 [104]⟩

/-- **C2.** From any starting state and input, each `split_chunk` call
consumes and returns a prefix of the remaining input; the concatenation of
all returned prefixes equals the input; the iteration terminates (it is a
total function) and `split_chunk` returns `none` only once the input is
fully drained, at which point the final state keeps returning `none`. -/
theorem claim_split_chunk_drains (st : Analyzer) (data : List Nat) :
    (∀ pre rest st', split_chunk st data = some (pre, rest, st') →
        pre ++ rest = data) ∧
    ((drainChunks st data).1).flatten = data ∧
    (split_chunk st data = none → data = []) ∧
    split_chunk (drainChunks st data).2 [] = none :=
  ⟨fun _ _ _ h => split_chunk_append h, drainChunks_join st data,
   fun h => split_chunk_none_nil h, drainChunks_final st data⟩

theorem claim_split_chunk_drains_witness :
    [2, 0] ++ [104, 1] = [2, 0, 104, 1] ∧
      ((drainChunks (.Head true false) [2, 0, 104, 1]).1).flatten
        = [2, 0, 104, 1] :=
  ⟨(claim_split_chunk_drains (.Head true false) [2, 0, 104, 1]).1
      [2, 0] [104, 1] (.Body 1 1 false) (by decide),
   (claim_split_chunk_drains (.Head true false) [2, 0, 104, 1]).2.1⟩

/-- **C6.** `check_incomplete` returns OK exactly in `Head` with the
message-boundary flag true, `Unix0`, or `Error`; in every other state it
returns the error naming where the stream stopped. -/
theorem claim_check_incomplete :
    (∀ a : Analyzer, check_incomplete a = .ok () ↔
        ((∃ wb, a = .Head true wb) ∨ a = .Unix0 ∨ a = .Error)) ∧
    (∀ wb, check_incomplete (.Head false wb) =
        .error "on a block boundary but not on a message boundary") ∧
    (∀ b1, check_incomplete (.PartialHead b1) =
        .error "in the middle of the header block") ∧
    (∀ s l, check_incomplete (.Body s l false) =
        .error "in the middle of a block") ∧
    (∀ s l, check_incomplete (.Body s l true) =
        .error "in the middle of the last block of the message") := by
  refine ⟨?_, fun _ => rfl, fun _ => rfl, fun _ _ => rfl, fun _ _ => rfl⟩
  intro a
  cases a with
  | Head bd wb => cases bd <;> simp [check_incomplete]
  | PartialHead b1 => simp [check_incomplete]
  | Body s l la => cases la <;> simp [check_incomplete]
  | Unix0 => simp [check_incomplete]
  | Error => simp [check_incomplete]

theorem claim_check_incomplete_witness :
    check_incomplete .Unix0 = .ok () :=
  (claim_check_incomplete.1 .Unix0).mpr (.inr (.inl rfl))

end Analyzer

end Mapi

namespace Proxy

/-- `enum Direction` from `src/proxy/event.rs`. -/
inductive Direction where
  | Upstream
  | Downstream
  deriving DecidableEq, Repr

/-- `Direction::sender` from `src/proxy/event.rs`. -/
def Direction.sender : Direction → String
  | .Upstream => "client"
  | .Downstream => "server"

/-- `Direction::receiver` from `src/proxy/event.rs`. -/
def Direction.receiver : Direction → String
  | .Upstream => "server"
  | .Downstream => "client"

/-- Kinds of `io::Error` the proxy inspects (`src/proxy/network.rs`,
`src/proxy/mod.rs`); all other kinds are collapsed into `other`. -/
inductive ErrorKind where
  | WouldBlock
  | NotConnected
  | other (code : Nat)
  deriving DecidableEq, Repr

/-- An `io::Error` value: its kind plus a tag distinguishing values. -/
structure IoErr where
  kind : ErrorKind
  tag : Nat
  deriving DecidableEq, Repr

/-- `enum Error` from `src/proxy/mod.rs` (the variants reachable from the
code under verification), plus `Panic` modelling a failed `assert!`. -/
inductive PError where
  | Connect
  | Forward (doing : String) (side : String) (err : IoErr)
  | Other (msg : String)
  | Panic (msg : String)
  deriving DecidableEq, Repr

/-- `enum Addr` from `src/proxy/network.rs`; the contained socket address /
path is abstracted to its display string. -/
inductive Addr where
  | Tcp (a : String)
  | Unix (path : String)
  deriving DecidableEq, Repr

/-- `Addr::is_tcp` from `src/proxy/network.rs`. -/
def Addr.is_tcp : Addr → Bool
  | .Tcp _ => true
  | .Unix _ => false

/-- `Addr::is_unix` from `src/proxy/network.rs`. -/
def Addr.is_unix (a : Addr) : Bool := !a.is_tcp

/-- `Addr`'s `Display` impl. -/
def Addr.display : Addr → String
  | .Tcp a => a
  | .Unix p => p

/-- `enum MapiEvent` from `src/proxy/event.rs`.  `ConnectionId` is modelled
as a plain `Nat`; byte buffers as `List Nat`. -/
inductive MapiEvent where
  | BoundPort (addr : Addr)
  | Incoming (id : Nat) (localAddr : Addr) (peer : Addr)
  | Connecting (id : Nat) (remote : Addr)
  | Connected (id : Nat) (peer : Addr)
  | End (id : Nat)
  | Aborted (id : Nat) (error : PError)
  | Data (id : Nat) (direction : Direction) (data : List Nat)
  | ShutdownRead (id : Nat) (direction : Direction)
  | ShutdownWrite (id : Nat) (direction : Direction) (discard : Nat)
  | ConnectFailed (id : Nat) (remote : String) (error : IoErr)
      (immediately : Bool)
  deriving DecidableEq, Repr

end Proxy

namespace Fwd

open Proxy

/-- `Copying::BUFSIZE` from `src/proxy/forward.rs`. -/
def BUFSIZE : Nat := 8192

/-- `struct Copying` from `src/proxy/forward.rs`: the per-direction buffer
of the bidirectional pump. -/
structure Copying where
  can_read : Bool
  can_write : Bool
  buffer : List Nat
  unsent_data : Nat
  free_space : Nat
  fix_unix_read : Bool
  deriving DecidableEq, Repr

/-- `Copying::new` from `src/proxy/forward.rs`: buffer starts zeroed; with
`fix_unix_write` the byte `b'0'` (48) is placed at index 0 and
`free_space` starts at 1, i.e. one pending outbound byte. -/
def Copying.new (fix_unix_read fix_unix_write : Bool) : Copying :=
  { can_read := true
    can_write := true
    buffer := if fix_unix_write then 48 :: List.replicate (BUFSIZE - 1) 0
              else List.replicate BUFSIZE 0
    unsent_data := 0
    free_space := if fix_unix_write then 1 else 0
    fix_unix_read := fix_unix_read }

/-- The two `Copying` buffers built by `Running::from`
(`src/proxy/forward.rs` lines 226-231): the pair is
`(upstream, downstream)`; `upstream = Copying::new(client_is_unix,
server_is_unix)` and `downstream = Copying::new(false, false)`. -/
def Running_copies (client_is_unix server_is_unix : Bool) : Copying × Copying :=
  (Copying.new client_is_unix server_is_unix, Copying.new false false)

/-- Outcome of one `wr.attempt(|w| w.write(to_write))` call, supplied as an
oracle: `Ok(n)`, `WouldBlock` (which only registers poller interest, not
modelled), or a hard I/O error. -/
inductive WriteResult where
  | ok (n : Nat)
  | wouldBlock
  | fail (e : IoErr)
  deriving DecidableEq, Repr

/-- Outcome of one `rd.attempt(|r| r.read(dest))` call, supplied as an
oracle; `ok data` stands for `Ok(data.len())` with `data` the bytes read. -/
inductive ReadResult where
  | ok (data : List Nat)
  | wouldBlock
  | fail (e : IoErr)
  deriving DecidableEq, Repr

/-- The unix-prefix fix at the top of `Copying::handle_one`
(`src/proxy/forward.rs` lines 344-355): on the first pass of a Unix-client
upstream copy the buffered first byte must be `b'0'`; it is skipped by
setting `unsent_data = 1` (so it is never written onward), any other byte
aborts with `Error::Other`.  The `assert_eq!(self.unsent_data, 0)` is
modelled as `PError.Panic`. -/
def fixStep (c : Copying) : Except PError Copying :=
  if c.fix_unix_read ∧ 0 < c.free_space then
    if c.unsent_data ≠ 0 then .error (.Panic "assertion failed")
    else if c.buffer.headI = 48 then
      .ok { c with unsent_data := 1, fix_unix_read := false }
    else
      .error (.Other "client did not start with a \x270\x27 (0x30) byte")
  else
    .ok c

/-- The write half of `Copying::handle_one` (`src/proxy/forward.rs` lines
357-385): if there is unsent data, attempt a write; `Ok(n ≥ 1)` advances
`unsent_data`; `Ok(0)` means the receiver closed its read half — emit
`ShutdownWrite` with the number of bytes that will never be delivered,
collapse the buffer and clear `can_write`; `WouldBlock` leaves the state
unchanged; other errors abort. -/
def writeStep (d : Direction) (id : Nat) (c : Copying) (wres : WriteResult) :
    Except PError (Copying × Bool × List MapiEvent) :=
  if c.free_space - c.unsent_data = 0 then .ok (c, false, [])
  else if ¬ c.can_write then .error (.Panic "assertion failed")
  else match wres with
    | .ok n =>
      if 1 ≤ n then
        .ok ({ c with unsent_data := c.unsent_data + n }, true, [])
      else
        .ok ({ c with unsent_data := c.free_space, can_write := false },
             true,
             [.ShutdownWrite id d (c.free_space - c.unsent_data)])
    | .wouldBlock => .ok (c, false, [])
    | .fail e => .error (.Forward "writing" d.receiver e)

/-- The empty-buffer bookkeeping of `Copying::handle_one`
(`src/proxy/forward.rs` lines 387-400): when the buffer is empty both
indices reset to 0; if the write side is open but reading is finished the
write side is closed too; if reading is still possible but writing is not,
`ShutdownRead` is emitted and the read side closed.  The two `if`s run in
sequence, exactly as in the source. -/
def collapseStep (d : Direction) (id : Nat) (c : Copying) :
    Copying × List MapiEvent :=
  if c.unsent_data = c.free_space then
    if c.can_write ∧ ¬ c.can_read then
      -- first `if` fires and clears `can_write`; the second `if` then
      -- requires `can_read`, which is false here
      ({ c with unsent_data := 0, free_space := 0, can_write := false }, [])
    else if c.can_read ∧ ¬ c.can_write then
      -- first `if` did not fire, so the second sees the original flags
      ({ c with unsent_data := 0, free_space := 0, can_read := false },
       [.ShutdownRead id d])
    else
      ({ c with unsent_data := 0, free_space := 0 }, [])
  else
    (c, [])

/-- The read half of `Copying::handle_one` (`src/proxy/forward.rs` lines
402-429): with both halves open and free capacity, attempt a read into
`buffer[free_space..]`; `n ≥ 1` bytes emit `Data` and advance
`free_space`; `Ok(0)` is EOF — emit `ShutdownRead` and clear `can_read`;
`WouldBlock` leaves the state unchanged; other errors abort. -/
def readStep (d : Direction) (id : Nat) (c : Copying) (rres : ReadResult) :
    Except PError (Copying × Bool × List MapiEvent) :=
  if c.can_read ∧ c.can_write ∧ c.free_space < BUFSIZE then
    match rres with
    | .ok data =>
      if 1 ≤ data.length then
        .ok ({ c with
                buffer := c.buffer.take c.free_space ++ data ++
                  c.buffer.drop (c.free_space + data.length),
                free_space := c.free_space + data.length },
             true, [.Data id d data])
      else
        .ok ({ c with can_read := false }, true, [.ShutdownRead id d])
    | .wouldBlock => .ok (c, false, [])
    | .fail e => .error (.Forward "reading" d.sender e)
  else
    .ok (c, false, [])

/-- `Copying::handle_one` from `src/proxy/forward.rs` (lines 331-432): the
three entry `assert!`s (modelled as `PError.Panic`), then the unix-prefix
fix, the write attempt, the empty-buffer bookkeeping and the read attempt,
in source order.  The socket calls are supplied as oracles `wres`/`rres`;
the returned `Bool` is the progress flag and the list collects the events
emitted through the `ConnectionSink` (whose connection id is `id`). -/
def handle_one (d : Direction) (id : Nat) (c : Copying)
    (wres : WriteResult) (rres : ReadResult) :
    Except PError (Copying × Bool × List MapiEvent) :=
  if ¬ (c.unsent_data ≤ c.free_space) then .error (.Panic "assertion failed")
  else if ¬ (c.free_space ≤ BUFSIZE) then .error (.Panic "assertion failed")
  else if ¬ (c.unsent_data = c.free_space ∨ c.can_write) then
    .error (.Panic "assertion failed")
  else
    match fixStep c with
    | .error e => .error e
    | .ok c1 =>
      match writeStep d id c1 wres with
      | .error e => .error e
      | .ok (c2, p2, evs2) =>
        match readStep d id (collapseStep d id c2).1 rres with
        | .error e => .error e
        | .ok (c4, p4, evs4) =>
          .ok (c4, p2 || p4, evs2 ++ (collapseStep d id c2).2 ++ evs4)

/-- `Copying::finished` from `src/proxy/forward.rs`. -/
def Copying.finished (c : Copying) : Bool := !c.can_read && !c.can_write

/-- The buffer invariant claimed for `Copying` (spec §3): indices in
bounds, writable side open while data is pending, and empty buffer means
both indices are 0. -/
def Copying.inv (c : Copying) : Prop :=
  c.unsent_data ≤ c.free_space ∧ c.free_space ≤ BUFSIZE ∧
  (c.unsent_data < c.free_space → c.can_write = true) ∧
  (c.unsent_data = c.free_space → c.unsent_data = 0 ∧ c.free_space = 0)

/-- Weakened invariant holding at the intermediate points of
`handle_one` (between the unix fix and the empty-buffer bookkeeping). -/
def Copying.inv3 (c : Copying) : Prop :=
  c.unsent_data ≤ c.free_space ∧ c.free_space ≤ BUFSIZE ∧
  (c.unsent_data < c.free_space → c.can_write = true)

/-- The bytes currently queued for writing onward:
`buffer[unsent_data..free_space]`. -/
def Copying.pendingOutput (c : Copying) : List Nat :=
  (c.buffer.take c.free_space).drop c.unsent_data

theorem Copying.new_unsent (fr fw : Bool) :
    (Copying.new fr fw).unsent_data = 0 := rfl

theorem Copying.new_free (fr fw : Bool) :
    (Copying.new fr fw).free_space = if fw then 1 else 0 := rfl

theorem Copying.new_can_read (fr fw : Bool) :
    (Copying.new fr fw).can_read = true := rfl

theorem Copying.new_can_write (fr fw : Bool) :
    (Copying.new fr fw).can_write = true := rfl

theorem Copying.new_fix (fr fw : Bool) :
    (Copying.new fr fw).fix_unix_read = fr := rfl

theorem Copying.new_inv (fr fw : Bool) : (Copying.new fr fw).inv := by
  refine ⟨?_, ?_, ?_, ?_⟩ <;>
    simp only [Copying.new_unsent, Copying.new_free,
      Copying.new_can_write] <;>
    cases fw <;> simp [BUFSIZE]

theorem fixStep_inv3 {c c1 : Copying} (h : c.inv)
    (hf : fixStep c = .ok c1) : c1.inv3 := by
  obtain ⟨h1, h2, h3, h4⟩ := h
  unfold fixStep at hf
  split at hf
  · rename_i hcond
    obtain ⟨hfix, hfree⟩ := hcond
    split at hf
    · exact absurd hf (by simp)
    · rename_i hz
      have hz0 : c.unsent_data = 0 := by omega
      split at hf
      · simp at hf
        subst hf
        exact ⟨show 1 ≤ c.free_space by omega,
               show c.free_space ≤ BUFSIZE from h2,
               fun _ => h3 (by omega)⟩
      · exact absurd hf (by simp)
  · simp at hf
    subst hf
    exact ⟨h1, h2, h3⟩

theorem writeStep_inv3 {d : Direction} {id : Nat} {c : Copying}
    {wres : WriteResult} {c2 : Copying} {p2 : Bool} {evs2 : List MapiEvent}
    (h : c.inv3)
    (hb : ∀ n, wres = .ok n → n ≤ c.free_space - c.unsent_data)
    (hw : writeStep d id c wres = .ok (c2, p2, evs2)) : c2.inv3 := by
  obtain ⟨h1, h2, h3⟩ := h
  unfold writeStep at hw
  split at hw
  · injection hw with hok
    injection hok with hc hrest
    subst hc
    exact ⟨h1, h2, h3⟩
  · rename_i hne
    split at hw
    · exact Except.noConfusion hw
    · rename_i hcw
      split at hw
      · rename_i n
        have hn := hb n rfl
        split at hw
        · rename_i hn1
          injection hw with hok
          injection hok with hc hrest
          subst hc
          exact ⟨show c.unsent_data + n ≤ c.free_space by omega,
                 show c.free_space ≤ BUFSIZE from h2,
                 fun _ => show c.can_write = true by simpa using hcw⟩
        · injection hw with hok
          injection hok with hc hrest
          subst hc
          exact ⟨show c.free_space ≤ c.free_space from le_refl _,
                 show c.free_space ≤ BUFSIZE from h2,
                 fun hlt =>
                   absurd (show c.free_space < c.free_space from hlt)
                     (lt_irrefl _)⟩
      · injection hw with hok
        injection hok with hc hrest
        subst hc
        exact ⟨h1, h2, h3⟩
      · exact Except.noConfusion hw

theorem collapseStep_inv {d : Direction} {id : Nat} {c : Copying}
    (h : c.inv3) : (collapseStep d id c).1.inv := by
  obtain ⟨h1, h2, h3⟩ := h
  unfold collapseStep
  split
  · rename_i heq
    split
    · exact ⟨show (0 : Nat) ≤ 0 from le_refl 0,
             show (0 : Nat) ≤ BUFSIZE by simp [BUFSIZE],
             fun hlt => absurd (show (0 : Nat) < 0 from hlt) (by omega),
             fun _ => ⟨rfl, rfl⟩⟩
    · split
      · exact ⟨show (0 : Nat) ≤ 0 from le_refl 0,
               show (0 : Nat) ≤ BUFSIZE by simp [BUFSIZE],
               fun hlt => absurd (show (0 : Nat) < 0 from hlt) (by omega),
               fun _ => ⟨rfl, rfl⟩⟩
      · exact ⟨show (0 : Nat) ≤ 0 from le_refl 0,
               show (0 : Nat) ≤ BUFSIZE by simp [BUFSIZE],
               fun hlt => absurd (show (0 : Nat) < 0 from hlt) (by omega),
               fun _ => ⟨rfl, rfl⟩⟩
  · rename_i hne
    exact ⟨h1, h2, h3, fun he => absurd he hne⟩

theorem readStep_inv {d : Direction} {id : Nat} {c : Copying}
    {rres : ReadResult} {c4 : Copying} {p4 : Bool} {evs4 : List MapiEvent}
    (h : c.inv)
    (hb : ∀ data, rres = .ok data → data.length ≤ BUFSIZE - c.free_space)
    (hr : readStep d id c rres = .ok (c4, p4, evs4)) : c4.inv := by
  obtain ⟨h1, h2, h3, h4⟩ := h
  unfold readStep at hr
  split at hr
  · rename_i hcond
    obtain ⟨hcr, hcw, hfs⟩ := hcond
    split at hr
    · rename_i data
      have hd := hb data rfl
      split at hr
      · rename_i hd1
        injection hr with hok
        injection hok with hc hrest
        subst hc
        exact ⟨show c.unsent_data ≤ c.free_space + data.length by omega,
               show c.free_space + data.length ≤ BUFSIZE by omega,
               fun _ => show c.can_write = true from hcw,
               fun he =>
                 absurd
                   (show c.unsent_data = c.free_space + data.length from he)
                   (by omega)⟩
      · injection hr with hok
        injection hok with hc hrest
        subst hc
        exact ⟨h1, h2, h3, h4⟩
    · injection hr with hok
      injection hok with hc hrest
      subst hc
      exact ⟨h1, h2, h3, h4⟩
    · exact Except.noConfusion hr
  · injection hr with hok
    injection hok with hc hrest
    subst hc
    exact ⟨h1, h2, h3, h4⟩

theorem handle_one_inv {d : Direction} {id : Nat} {c : Copying}
    {wres : WriteResult} {rres : ReadResult} {c' : Copying} {p : Bool}
    {evs : List MapiEvent} (h : c.inv)
    (hwb : ∀ n c1, wres = .ok n → fixStep c = .ok c1 →
        n ≤ c1.free_space - c1.unsent_data)
    (hrb : ∀ data c1 c2 p2 e2, rres = .ok data → fixStep c = .ok c1 →
        writeStep d id c1 wres = .ok (c2, p2, e2) →
        data.length ≤ BUFSIZE - (collapseStep d id c2).1.free_space)
    (hh : handle_one d id c wres rres = .ok (c', p, evs)) : c'.inv := by
  unfold handle_one at hh
  split at hh
  · exact Except.noConfusion hh
  · split at hh
    · exact Except.noConfusion hh
    · split at hh
      · exact Except.noConfusion hh
      · split at hh
        · exact Except.noConfusion hh
        · rename_i x1 c1 hfix
          have hc1 : c1.inv3 := fixStep_inv3 h hfix
          split at hh
          · exact Except.noConfusion hh
          · rename_i x2 c2 p2 evs2 hwrite
            have hc2 : c2.inv3 :=
              writeStep_inv3 hc1 (fun n hn => hwb n c1 hn hfix) hwrite
            have hc3 : (collapseStep d id c2).1.inv := collapseStep_inv hc2
            split at hh
            · exact Except.noConfusion hh
            · rename_i x3 c4 p4 evs4 hread
              injection hh with hok
              injection hok with hc hrest
              subst hc
              exact readStep_inv
                (show (collapseStep d id c2).1.inv from hc3)
                (fun data hd => hrb data c1 c2 p2 evs2 hd hfix hwrite)
                hread

/-- **C3.** `Copying::new` establishes the buffer invariant and every
non-erroring `handle_one` call preserves it: `0 ≤ unsent_data ≤
free_space ≤ 8192`, pending data implies the writable side is still open,
and an empty buffer has both indices reset to 0.  The two bound
hypotheses are the `io::Read`/`io::Write` contracts: a successful
`write` never reports more bytes than the slice it was given
(`buffer[unsent_data..free_space]` after the unix fix), and a successful
`read` never returns more bytes than fit in `buffer[free_space..]`. -/
theorem claim_copying_invariant :
    (∀ fr fw, (Copying.new fr fw).inv) ∧
    (∀ (d : Direction) (id : Nat) (c : Copying) (wres : WriteResult)
        (rres : ReadResult) (c' : Copying) (p : Bool)
        (evs : List MapiEvent),
        c.inv →
        (∀ n c1, wres = .ok n → fixStep c = .ok c1 →
            n ≤ c1.free_space - c1.unsent_data) →
        (∀ data c1 c2 p2 e2, rres = .ok data → fixStep c = .ok c1 →
            writeStep d id c1 wres = .ok (c2, p2, e2) →
            data.length ≤ BUFSIZE - (collapseStep d id c2).1.free_space) →
        handle_one d id c wres rres = .ok (c', p, evs) → c'.inv) :=
  ⟨Copying.new_inv,
   fun _ _ _ _ _ _ _ _ h hwb hrb hh => handle_one_inv h hwb hrb hh⟩

theorem claim_copying_invariant_witness :
    (Copying.new false false).inv :=
  claim_copying_invariant.2 .Upstream 10 (Copying.new false false)
    .wouldBlock .wouldBlock (Copying.new false false) false []
    (claim_copying_invariant.1 false false)
    (fun _ _ hn _ => WriteResult.noConfusion hn)
    (fun _ _ _ _ _ hd _ _ => ReadResult.noConfusion hd)
    rfl

/-- **C7 counterexample.** The claim places the `'0'` prepended for a Unix
*server* on the *downstream* copy.  In `Running::from` the downstream copy
is always `Copying::new(false, false)` — it starts with an empty pending
output — while the sentinel is prepended on the **upstream** copy
(`Copying::new(client_is_unix, server_is_unix)`).  Concrete input: a TCP
client (`client_is_unix = false`) connected to a Unix server
(`server_is_unix = true`). -/
theorem claim_unix_prefix_counterexample :
    (Running_copies false true).2.pendingOutput = [] ∧
    (Running_copies false true).2.pendingOutput ≠ [48] ∧
    (Running_copies false true).1.pendingOutput = [48] :=
  ⟨rfl, by decide, rfl⟩

/-- **C7 (amended).** On the upstream copy for a Unix client the very first
byte must be `'0'` (0x30); it is consumed without being forwarded (the
pending output after the fix skips buffer index 0), and any other first
byte aborts the connection with a descriptive error.  For a Unix *server*
the `'0'` byte is prepended to the outbound stream on the **upstream**
(to-server) copy, before any bytes read from the client; the downstream
copy never prepends anything. -/
theorem claim_unix_prefix_amended :
    (∀ cu su : Bool,
        (Running_copies cu su).1.pendingOutput = (if su then [48] else []) ∧
        (Running_copies cu su).1.fix_unix_read = cu ∧
        (Running_copies cu su).2 = Copying.new false false) ∧
    (∀ (d : Direction) (id : Nat) (c : Copying) (wres : WriteResult)
        (rres : ReadResult),
        c.fix_unix_read = true → 0 < c.free_space →
        c.free_space ≤ BUFSIZE → c.unsent_data = 0 → c.can_write = true →
        ((c.buffer.headI = 48 →
            fixStep c =
              .ok { c with unsent_data := 1, fix_unix_read := false } ∧
            ({ c with unsent_data := 1, fix_unix_read := false } :
                Copying).pendingOutput
              = (c.buffer.take c.free_space).drop 1) ∧
         (c.buffer.headI ≠ 48 →
            handle_one d id c wres rres =
              .error
                (.Other
                  "client did not start with a \x270\x27 (0x30) byte")))) := by
  constructor
  · intro cu su
    cases su <;> exact ⟨rfl, rfl, rfl⟩
  · intro d id c wres rres hfix hfree hbuf hz hcw
    constructor
    · intro hb0
      refine ⟨?_, rfl⟩
      unfold fixStep
      rw [if_pos ⟨hfix, hfree⟩]
      rw [if_neg (by simp [hz])]
      rw [if_pos hb0]
    · intro hnb
      have hfx : fixStep c =
          .error (.Other "client did not start with a \x270\x27 (0x30) byte") := by
        unfold fixStep
        rw [if_pos ⟨hfix, hfree⟩]
        rw [if_neg (by simp [hz])]
        rw [if_neg hnb]
      unfold handle_one
      rw [if_neg (not_not_intro (by omega))]
      rw [if_neg (not_not_intro hbuf)]
      rw [if_neg (not_not_intro (Or.inr hcw))]
      rw [hfx]

theorem claim_unix_prefix_amended_witness :
    fixStep ⟨true, true, [48, 7], 0, 1, true⟩ =
      .ok ⟨true, true, [48, 7], 1, 1, false⟩ ∧
    handle_one .Upstream 10 ⟨true, true, [49, 7], 0, 1, true⟩
        .wouldBlock .wouldBlock =
      .error (.Other "client did not start with a \x270\x27 (0x30) byte") :=
  ⟨((claim_unix_prefix_amended.2 .Upstream 10 ⟨true, true, [48, 7], 0, 1, true⟩
      .wouldBlock .wouldBlock rfl (by decide) (by decide) rfl rfl).1
      (by decide)).1,
   (claim_unix_prefix_amended.2 .Upstream 10 ⟨true, true, [49, 7], 0, 1, true⟩
      .wouldBlock .wouldBlock rfl (by decide) (by decide) rfl rfl).2
      (by decide)⟩

/-- `MioStream::established` from `src/proxy/network.rs` (lines 375-393):
first clear `SO_ERROR` via `take_error` — a stored or failing error fails
the probe — then read the peer name; `WouldBlock`/`NotConnected` mean "not
established yet" (`Ok(None)`), success returns the peer, and any other
error propagates.  Both socket calls are supplied as oracles. -/
def established (take_error : Except IoErr (Option IoErr))
    (peer_addr : Except IoErr Addr) : Except IoErr (Option Addr) :=
  match take_error with
  | .error e => .error e
  | .ok (some e) => .error e
  | .ok none =>
    match peer_addr with
    | .ok a => .ok (some a)
    | .error e =>
      match e.kind with
      | .WouldBlock => .ok none
      | .NotConnected => .ok none
      | .other _ => .error e

/-- Oracle for one candidate address in `Connecting::connect_addrs`: either
`addr.connect()` succeeded (and `update_registration` may still fail), or
the non-blocking connect itself failed immediately. -/
inductive ConnectRes where
  | conn (regErr : Option IoErr)
  | connFail (e : IoErr)
  deriving DecidableEq, Repr

/-- `Connecting::connect_addrs` from `src/proxy/forward.rs` (lines
135-157): walk the remaining candidate addresses; for each, emit
`Connecting`, then try the non-blocking connect and the poller
registration; on failure emit `ConnectFailed{immediate:true}` and continue
with the next candidate; on success return the registered stream (its
address) together with the candidates not yet tried.  Returns `none` when
every candidate failed. -/
def connect_addrs (id : Nat) :
    List (Addr × ConnectRes) →
      List MapiEvent × Option (Addr × List (Addr × ConnectRes))
  | [] => ([], none)
  | (a, r) :: rest =>
    match r with
    | .conn none => ([.Connecting id a], some (a, rest))
    | .conn (some e) =>
      let (evs, out) := connect_addrs id rest
      (.Connecting id a :: .ConnectFailed id a.display e true :: evs, out)
    | .connFail e =>
      let (evs, out) := connect_addrs id rest
      (.Connecting id a :: .ConnectFailed id a.display e true :: evs, out)

/-- `struct Connecting` from `src/proxy/forward.rs`: the name of the
candidate currently being connected (`server.name`) plus the iterator of
remaining candidates (each with its connect oracle). -/
structure Connecting where
  serverName : String
  addrs : List (Addr × ConnectRes)
  deriving DecidableEq, Repr

/-- Result of one `Connecting::process` wakeup. -/
inductive ProcessOutcome where
  | stillConnecting (s : Connecting)
  | toRunning (peer : Addr)
  | allFailed
  deriving DecidableEq, Repr

/-- `Connecting::process` from `src/proxy/forward.rs` (lines 164-214): ask
the in-flight stream whether it is established.  Success emits `Connected`
and hands over to `Running` (`Running::from` plus its kick-started
`process` run are outside this step and not simulated here).  `Ok(None)`
keeps waiting in the same `Connecting` state.  An error emits
`ConnectFailed{immediate:false}` for the current candidate and advances to
the next one via `connect_addrs`; if no candidate is left the method
returns `Err(Error::Connect)` (`allFailed`). -/
def Connecting.process (s : Connecting) (id : Nat)
    (est : Except IoErr (Option Addr)) : List MapiEvent × ProcessOutcome :=
  match est with
  | .ok (some peer) => ([.Connected id peer], .toRunning peer)
  | .ok none => ([], .stillConnecting s)
  | .error e =>
    match connect_addrs id s.addrs with
    | (evs, some (a, rest)) =>
      (.ConnectFailed id s.serverName e false :: evs,
       .stillConnecting { serverName := a.display, addrs := rest })
    | (evs, none) =>
      (.ConnectFailed id s.serverName e false :: evs, .allFailed)

/-- What `Proxy::handle_forward_event` does with the connection after this
wakeup (`src/proxy/mod.rs` lines 234-265). -/
inductive FwdFate where
  | kept (s : Connecting)
  | running (peer : Addr)
  | removed
  deriving DecidableEq, Repr

/-- `Proxy::handle_forward_event` (`src/proxy/mod.rs` lines 234-265)
restricted to a forwarder in the `Connecting` state: `Continue` keeps the
forwarder; an `Err` from `process` (all candidates failed) emits
`Aborted` and removes the connection. -/
def handle_forward_connecting (s : Connecting) (id : Nat)
    (est : Except IoErr (Option Addr)) : List MapiEvent × FwdFate :=
  match Connecting.process s id est with
  | (evs, .stillConnecting s') => (evs, .kept s')
  | (evs, .toRunning peer) => (evs, .running peer)
  | (evs, .allFailed) => (evs ++ [.Aborted id .Connect], .removed)

/-- **C4.** The `Connecting` wakeup logic: `established` clears `SO_ERROR`
then reads the peer name; `WouldBlock`/`NotConnected` keep waiting
unchanged with no events; success emits `Connected` and moves to
`Running`; any other error emits `ConnectFailed{immediate:false}` and
advances through the remaining candidates, each failed candidate emitting
`Connecting` followed by `ConnectFailed{immediate:true}`; when every
candidate has failed, `Aborted` is emitted and the connection is
removed. -/
theorem claim_connecting_process :
    -- a pending SO_ERROR (or a failing take_error) fails the probe
    (∀ e peer, established (.error e) peer = .error e) ∧
    (∀ e peer, established (.ok (some e)) peer = .error e) ∧
    -- peer-name probing outcomes
    (∀ e : IoErr, (e.kind = .WouldBlock ∨ e.kind = .NotConnected) →
        established (.ok none) (.error e) = .ok none) ∧
    (∀ a, established (.ok none) (.ok a) = .ok (some a)) ∧
    (∀ code t, established (.ok none) (.error ⟨.other code, t⟩) =
        .error ⟨.other code, t⟩) ∧
    -- not yet established: keep waiting, no events
    (∀ s id, handle_forward_connecting s id (.ok none) = ([], .kept s)) ∧
    -- established: emit Connected and hand over to Running
    (∀ s id peer, handle_forward_connecting s id (.ok (some peer)) =
        ([.Connected id peer], .running peer)) ∧
    -- each failed candidate: Connecting then ConnectFailed{immediate:true}
    (∀ id a e rest r, (r = .connFail e ∨ r = .conn (some e)) →
        connect_addrs id ((a, r) :: rest) =
          (.Connecting id a :: .ConnectFailed id a.display e true ::
             (connect_addrs id rest).1, (connect_addrs id rest).2)) ∧
    (∀ id a rest, connect_addrs id ((a, .conn none) :: rest) =
        ([.Connecting id a], some (a, rest))) ∧
    (∀ id, connect_addrs id [] = ([], none)) ∧
    -- hard error: ConnectFailed{immediate:false}, advance or abort+remove
    (∀ s id e,
        handle_forward_connecting s id (.error e) =
          match connect_addrs id s.addrs with
          | (evs, some (a, rest)) =>
            (.ConnectFailed id s.serverName e false :: evs,
             .kept { serverName := a.display, addrs := rest })
          | (evs, none) =>
            ((.ConnectFailed id s.serverName e false :: evs) ++
               [.Aborted id .Connect], .removed)) := by
  refine ⟨fun e peer => rfl, fun e peer => rfl, ?_, fun a => rfl,
          fun code t => rfl, fun s id => rfl, fun s id peer => rfl,
          ?_, fun id a rest => rfl, fun id => rfl, ?_⟩
  · intro e he
    obtain ⟨k, t⟩ := e
    rcases he with hk | hk
    · have hk2 : k = ErrorKind.WouldBlock := hk
      subst hk2
      rfl
    · have hk2 : k = ErrorKind.NotConnected := hk
      subst hk2
      rfl
  · intro id a e rest r hr
    rcases hr with rfl | rfl <;> simp [connect_addrs]
  · intro s id e
    unfold handle_forward_connecting Connecting.process
    rcases hca : connect_addrs id s.addrs with ⟨evs, out⟩
    cases out with
    | none => simp
    | some v => rcases v with ⟨a, rest⟩; simp

theorem claim_connecting_process_witness :
    established (.ok none) (.error ⟨.WouldBlock, 0⟩) = .ok none ∧
    connect_addrs 10 [(.Tcp "x:1", .connFail ⟨.other 1, 1⟩)] =
      ([.Connecting 10 (.Tcp "x:1"),
        .ConnectFailed 10 (Addr.display (.Tcp "x:1")) ⟨.other 1, 1⟩ true],
       none) :=
  ⟨claim_connecting_process.2.2.1 ⟨.WouldBlock, 0⟩ (Or.inl rfl),
   claim_connecting_process.2.2.2.2.2.2.2.1 10 (.Tcp "x:1") ⟨.other 1, 1⟩
     [] (.connFail ⟨.other 1, 1⟩) (Or.inl rfl)⟩

end Fwd

namespace Pcap

open Proxy

/-- `struct StreamState` from `src/pcap/tcp.rs`: per-half TCP reassembly
state.  `waiting` models the `HashMap<u32, (Vec<u8>, bool)>` as an
association list with unique keys; sequence numbers are `u32` values kept
as `Nat < 2^32`. -/
structure StreamState where
  id : Nat
  dir : Direction
  waiting_for : Nat
  waiting : List (Nat × List Nat × Bool)
  finished : Bool
  deriving DecidableEq, Repr

/-- `HashMap::get`/`remove` lookup on the association list. -/
def lookupW (k : Nat) (m : List (Nat × List Nat × Bool)) :
    Option (List Nat × Bool) :=
  (m.find? (fun p => p.1 == k)).map (fun p => p.2)

/-- `HashMap::insert` (replaces an existing binding). -/
def insertW (k : Nat) (v : List Nat × Bool)
    (m : List (Nat × List Nat × Bool)) : List (Nat × List Nat × Bool) :=
  (k, v) :: m.filter (fun p => p.1 != k)

/-- The removal part of `HashMap::remove`. -/
def eraseW (k : Nat) (m : List (Nat × List Nat × Bool)) :
    List (Nat × List Nat × Bool) :=
  m.filter (fun p => p.1 != k)

/-- `StreamState::new` from `src/pcap/tcp.rs`. -/
def StreamState.new (id : Nat) (dir : Direction) (seqno : Nat) :
    StreamState :=
  { id := id, dir := dir, waiting_for := seqno, waiting := [],
    finished := false }

/-- `StreamState::yield_payload` from `src/pcap/tcp.rs`: record `fin` and
advance `waiting_for` by the payload length, wrapping 32-bit
(`payload.len() as u32` then `wrapping_add`). -/
def yield_payload (s : StreamState) (payload : List Nat) (fin : Bool) :
    StreamState :=
  { s with
      finished := s.finished || fin,
      waiting_for :=
        (s.waiting_for + payload.length % 4294967296) % 4294967296 }

/-- `StreamState::reorder` from `src/pcap/tcp.rs` (lines 228-244): a
segment at exactly `waiting_for` is yielded; otherwise
`delta = seqno.wrapping_sub(waiting_for)` (for `u32` operands, i.e.
`waiting_for < 2^32`, this is `(seqno + 2^32 - waiting_for) % 2^32`)
decides: `(delta as i32) < 0` — that is `delta ≥ 2^31` — drops the
segment as already seen, anything else is stored for later. -/
def reorder (s : StreamState) (seqno : Nat) (fin : Bool)
    (payload : List Nat) : StreamState × Option (List Nat) :=
  if s.waiting_for = seqno then
    (yield_payload s payload fin, some payload)
  else
    if 2147483648 ≤ (seqno + 4294967296 - s.waiting_for) % 4294967296 then
      (s, none)
    else
      ({ s with waiting := insertW seqno (payload, fin) s.waiting }, none)

/-- `StreamState::next_ready` from `src/pcap/tcp.rs`: if the sequence
number now awaited is in the map, remove it and yield it. -/
def next_ready (s : StreamState) : Option (List Nat) × StreamState :=
  match lookupW s.waiting_for s.waiting with
  | some (payload, fin) =>
    (some payload,
     yield_payload { s with waiting := eraseW s.waiting_for s.waiting }
       payload fin)
  | none => (none, s)

/-- The `while let Some(payload) = stream.next_ready()` loop of
`TcpTracker::handle_existing`, with explicit fuel; each successful
`next_ready` removes one entry from the map, so fuel
`s.waiting.length + 1` runs the loop to completion
(`drain_ready_complete`). -/
def drain_ready : Nat → StreamState → StreamState × List (List Nat)
  | 0, s => (s, [])
  | fuel + 1, s =>
    match next_ready s with
    | (none, _) => (s, [])
    | (some p, s') =>
      let r := drain_ready fuel s'
      (r.1, p :: r.2)

theorem lookupW_erase_length {k : Nat} {m : List (Nat × List Nat × Bool)}
    {v : List Nat × Bool} (h : lookupW k m = some v) :
    (eraseW k m).length < m.length := by
  induction m with
  | nil => simp [lookupW] at h
  | cons p tl ih =>
    by_cases hk : p.1 = k
    · have hfp : (p.1 != k) = false := by simp [hk]
      have he : eraseW k (p :: tl) = eraseW k tl := by
        unfold eraseW
        simp only [List.filter_cons, hfp]
        simp
      rw [he]
      have hlen := List.length_filter_le (fun q => q.1 != k) tl
      unfold eraseW
      simp only [List.length_cons]
      omega
    · have hk2 : (p.1 != k) = true := by simp [hk]
      have h2 : lookupW k tl = some v := by
        unfold lookupW at h ⊢
        rwa [List.find?_cons_of_neg _ (by simp [hk])] at h
      have he : eraseW k (p :: tl) = p :: eraseW k tl := by
        unfold eraseW
        simp only [List.filter_cons, hk2]
        simp
      rw [he]
      have := ih h2
      simp only [List.length_cons]
      omega

theorem drain_ready_complete (fuel : Nat) (s : StreamState)
    (h : s.waiting.length < fuel) :
    (next_ready (drain_ready fuel s).1).1 = none := by
  induction fuel generalizing s with
  | zero => omega
  | succ fuel ih =>
    unfold drain_ready
    cases hnr : next_ready s with
    | mk o s' =>
      cases o with
      | none => simpa using congrArg Prod.fst hnr
      | some p =>
        simp only
        apply ih
        unfold next_ready at hnr
        cases hl : lookupW s.waiting_for s.waiting with
        | none => rw [hl] at hnr; simp at hnr
        | some v =>
          obtain ⟨pl, fin⟩ := v
          rw [hl] at hnr
          simp at hnr
          obtain ⟨-, hs'⟩ := hnr
          subst hs'
          have := lookupW_erase_length hl
          simpa [yield_payload] using by omega

/-- The per-segment data path of `TcpTracker::handle_existing`
(`src/pcap/tcp.rs` lines 120-171) for one direction's `StreamState`:
`reorder` the segment, emit `Data` for the yielded payload if non-empty
(`TcpTracker::emit_data` skips empty payloads), drain `next_ready`
repeatedly emitting each non-empty payload, and finally emit
`ShutdownRead` if the half is now finished.  The removal of both flow-table
entries and the `End` event when the opposite half has also finished live
at the tracker map level and are outside this per-stream step. -/
def handle_existing_stream (s : StreamState) (seqno : Nat) (fin : Bool)
    (payload : List Nat) : StreamState × List MapiEvent :=
  match reorder s seqno fin payload with
  | (s1, none) => (s1, [])
  | (s1, some p) =>
    let evs1 : List MapiEvent :=
      if p.isEmpty then [] else [.Data s.id s.dir p]
    let r := drain_ready (s1.waiting.length + 1) s1
    let evs2 : List MapiEvent :=
      (r.2.filter (fun q => !q.isEmpty)).map (fun q => .Data s.id s.dir q)
    let evs3 : List MapiEvent :=
      if r.1.finished then [.ShutdownRead s.id s.dir] else []
    (r.1, evs1 ++ evs2 ++ evs3)

/-- **C5.** Per-direction pcap reordering: a segment at exactly
`waiting_for` is yielded immediately and `waiting_for` advances by the
payload length modulo `2^32`; a segment whose delta
`seq - waiting_for` (mod `2^32`) reinterpreted as signed 32-bit is
negative is dropped; any other segment is buffered keyed by its sequence
number and is drained once `waiting_for` reaches it; `Data` events are
emitted for each non-empty payload in stream order — in particular
segments with seq 100 ("AB"), 104 ("EF"), 102 ("CD") produce
Data("AB"), Data("CD"), Data("EF") in that order. -/
theorem claim_pcap_reorder :
    (∀ (s : StreamState) (fin : Bool) (p : List Nat),
        reorder s s.waiting_for fin p = (yield_payload s p fin, some p) ∧
        (yield_payload s p fin).waiting_for =
          (s.waiting_for + p.length % 4294967296) % 4294967296) ∧
    (∀ (s : StreamState) (seq : Nat) (fin : Bool) (p : List Nat),
        s.waiting_for ≠ seq →
        2147483648 ≤ (seq + 4294967296 - s.waiting_for) % 4294967296 →
        reorder s seq fin p = (s, none)) ∧
    (∀ (s : StreamState) (seq : Nat) (fin : Bool) (p : List Nat),
        s.waiting_for ≠ seq →
        (seq + 4294967296 - s.waiting_for) % 4294967296 < 2147483648 →
        reorder s seq fin p =
          ({ s with waiting := insertW seq (p, fin) s.waiting }, none) ∧
        lookupW seq (insertW seq (p, fin) s.waiting) = some (p, fin)) ∧
    (∀ (s : StreamState) (p : List Nat) (fin : Bool),
        lookupW s.waiting_for s.waiting = some (p, fin) →
        next_ready s =
          (some p,
           yield_payload
             { s with waiting := eraseW s.waiting_for s.waiting } p fin)) ∧
    ((handle_existing_stream (StreamState.new 10 .Upstream 100)
        100 false [65, 66]).2 ++
     (handle_existing_stream
        (handle_existing_stream (StreamState.new 10 .Upstream 100)
          100 false [65, 66]).1 104 false [69, 70]).2 ++
     (handle_existing_stream
        (handle_existing_stream
          (handle_existing_stream (StreamState.new 10 .Upstream 100)
            100 false [65, 66]).1 104 false [69, 70]).1
        102 false [67, 68]).2 =
       [.Data 10 .Upstream [65, 66],
        .Data 10 .Upstream [67, 68],
        .Data 10 .Upstream [69, 70]]) := by
  refine ⟨?_, ?_, ?_, ?_, ?_⟩
  · intro s fin p
    exact ⟨by simp [reorder], rfl⟩
  · intro s seq fin p h1 h2
    unfold reorder
    rw [if_neg h1, if_pos h2]
  · intro s seq fin p h1 h2
    constructor
    · unfold reorder
      rw [if_neg h1, if_neg (by omega)]
    · simp [lookupW, insertW]
  · intro s p fin hl
    unfold next_ready
    rw [hl]
  · decide

theorem claim_pcap_reorder_witness :
    reorder (StreamState.new 10 .Upstream 100) 99 false [7] =
      (StreamState.new 10 .Upstream 100, none) :=
  claim_pcap_reorder.2.1 (StreamState.new 10 .Upstream 100) 99 false [7]
    (by decide) (by decide)

/-- **C8.** 32-bit wrap: with `waiting_for = 0xFFFFFFF0`, a segment at seq
`0x00000005` has delta `(5 - 0xFFFFFFF0) mod 2^32 = 21`, non-negative as
a signed 32-bit value, so it is **not** dropped as a duplicate: it is
buffered under its sequence number and yielded as soon as the 21
intervening bytes arrive (shown here with a concrete 21-byte filler). -/
theorem claim_pcap_wraparound (payload : List Nat) (fin : Bool) :
    (5 + 4294967296 -
        (StreamState.new 10 .Upstream 4294967280).waiting_for) %
        4294967296 = 21 ∧
    ¬ (2147483648 ≤ (5 + 4294967296 -
        (StreamState.new 10 .Upstream 4294967280).waiting_for) %
        4294967296) ∧
    reorder (StreamState.new 10 .Upstream 4294967280) 5 fin payload =
      ({ StreamState.new 10 .Upstream 4294967280 with
          waiting := insertW 5 (payload, fin) [] }, none) ∧
    lookupW 5 (insertW 5 (payload, fin) []) = some (payload, fin) ∧
    (handle_existing_stream
        { StreamState.new 10 .Upstream 4294967280 with
            waiting := insertW 5 ([9], false) [] }
        4294967280 false (List.replicate 21 7)).2 =
      [.Data 10 .Upstream (List.replicate 21 7), .Data 10 .Upstream [9]] := by
  refine ⟨by decide, by decide, ?_, ?_, ?_⟩
  · unfold reorder
    rw [if_neg (by decide), if_neg (by decide)]
    rfl
  · simp [lookupW, insertW]
  · decide

/-- The packet loop of `parse_legacy_pcap` from `src/pcap/mod.rs` (lines
48-63): each packet whose captured data length equals the file header's
`snaplen` aborts the whole run with the fatal error `"truncated packet"`;
every other packet is handed to `process_packet` (abstracted here as
`proc`, which also covers its possible errors) and the loop continues. -/
def parse_legacy_packets (snaplen : Nat)
    (proc : List Nat → Except String Unit) :
    List (List Nat) → Except String Unit
  | [] => .ok ()
  | pkt :: rest =>
    if pkt.length = snaplen then .error "truncated packet"
    else
      match proc pkt with
      | .error e => .error e
      | .ok () => parse_legacy_packets snaplen proc rest

/-- **C10.** Legacy pcap ingest: a packet whose captured length equals the
declared `snaplen` is rejected with the fatal `"truncated packet"` error
aborting the run — the test is pure length equality, regardless of
whether the packet was actually truncated — while a packet whose length
differs is processed normally and the loop continues. -/
theorem claim_snaplen_truncation :
    (∀ (snaplen : Nat) (proc : List Nat → Except String Unit)
        (pkt : List Nat) (rest : List (List Nat)),
        pkt.length = snaplen →
        parse_legacy_packets snaplen proc (pkt :: rest) =
          .error "truncated packet") ∧
    (∀ (snaplen : Nat) (proc : List Nat → Except String Unit)
        (pkt : List Nat) (rest : List (List Nat)),
        pkt.length ≠ snaplen →
        parse_legacy_packets snaplen proc (pkt :: rest) =
          match proc pkt with
          | .error e => .error e
          | .ok () => parse_legacy_packets snaplen proc rest) := by
  constructor
  · intro snaplen proc pkt rest h
    unfold parse_legacy_packets
    rw [if_pos h]
  · intro snaplen proc pkt rest h
    simp only [parse_legacy_packets]
    rw [if_neg h]

theorem claim_pcap_wraparound_witness :
    lookupW 5 (insertW 5 ([3], false) []) = some ([3], false) :=
  (claim_pcap_wraparound [3] false).2.2.2.1

theorem claim_snaplen_truncation_witness :
    parse_legacy_packets 2 (fun _ => Except.ok ()) [[1, 2]] =
      .error "truncated packet" ∧
    parse_legacy_packets 2 (fun _ => Except.ok ()) [[1]] = .ok () :=
  ⟨claim_snaplen_truncation.1 2 (fun _ => Except.ok ()) [1, 2] [] rfl,
   by
     rw [claim_snaplen_truncation.2 2 (fun _ => Except.ok ()) [1] []
       (by decide)]
     rfl⟩

end Pcap

namespace Net

/-- `enum MonetAddr` from `src/proxy/network.rs`.  Host strings and paths
are byte lists; the parsed IP addresses keep their numeric components. -/
inductive MonetAddr where
  | Dns (host : List Nat) (port : Nat)
  | Ip4 (a b c d : Nat) (port : Nat)
  | Ip6 (groups : List Nat) (port : Nat)
  | Unix (path : List Nat)
  | PortOnly (port : Nat)
  deriving DecidableEq, Repr

/-- ASCII decimal digit. -/
def isAsciiDigit (b : Nat) : Bool := 48 ≤ b && b ≤ 57

/-- ASCII hex digit (both cases), for the `[0-9a-f:]` class used with the
case-insensitive flag. -/
def isHexDigit (b : Nat) : Bool :=
  isAsciiDigit b || (97 ≤ b && b ≤ 102) || (65 ≤ b && b ≤ 70)

def isHexColon (b : Nat) : Bool := isHexDigit b || b == 58

/-- Letters and digits, case-insensitive (`[a-z0-9]`i). -/
def isAlnum (b : Nat) : Bool :=
  isAsciiDigit b || (97 ≤ b && b ≤ 122) || (65 ≤ b && b ≤ 90)

/-- `[-a-z0-9.]`i. -/
def isDnsTail (b : Nat) : Bool := isAlnum b || b == 45 || b == 46

/-- Value of a run of decimal digits. -/
def digitsVal (l : List Nat) : Nat :=
  l.foldl (fun acc d => acc * 10 + (d - 48)) 0

/-- Value of a run of hex digits (case-insensitive). -/
def hexDigitVal (b : Nat) : Nat :=
  if isAsciiDigit b then b - 48
  else if 97 ≤ b && b ≤ 102 then b - 87
  else b - 55

def hexVal (l : List Nat) : Nat :=
  l.foldl (fun acc d => acc * 16 + hexDigitVal d) 0

/-- Rust's `str::parse::<u16>`: an optional leading `+`, then one or more
ASCII decimal digits, rejecting overflow past `u16::MAX`.  (Modelled from
the Rust standard library; inputs are restricted to ASCII, which is the
fragment all concrete claims about this parser use.) -/
def parse_u16 (s : List Nat) : Option Nat :=
  let s' := match s with
    | 43 :: rest => rest
    | _ => s
  if !s'.isEmpty && s'.all isAsciiDigit then
    if digitsVal s' ≤ 65535 then some (digitsVal s') else none
  else none

/-- One candidate split position for the anchored regex `^(.+):(\d+)$`:
byte `i` is the colon, everything before it is the non-empty host (`.+`
matches any byte except a newline), everything after it is a non-empty
run of digits. -/
def validSplitAt (s : List Nat) (i : Nat) : Bool :=
  decide (1 ≤ i) && (s.take i).all (fun b => b != 10) &&
    (s.getD i 0 == 58) &&
    !(s.drop (i + 1)).isEmpty && (s.drop (i + 1)).all isAsciiDigit

/-- The match of `regex_captures!(r"^(.+):(\d+)$", str_value)`: the greedy
`.+` makes the captured host the longest prefix admitting a valid split,
i.e. the split happens at the largest valid colon position. -/
def splitHostPort (s : List Nat) : Option (List Nat × List Nat) :=
  match (List.range s.length).reverse.find? (validSplitAt s) with
  | some i => some (s.take i, s.drop (i + 1))
  | none => none

/-- Non-empty run of ASCII digits (`\d+`). -/
def isDigitRun (l : List Nat) : Bool := !l.isEmpty && l.all isAsciiDigit

/-- The match of `regex_is_match!(r"^\d+.\d+.\d+.\d+$", host_part)`.  The
dots in this regex are **unescaped**, so each `.` matches any byte except
a newline: the string must decompose as
`\d+ <any> \d+ <any> \d+ <any> \d+`, the three separator bytes sitting at
positions `i < j < k`. -/
def matchesSloppyIpv4 (s : List Nat) : Bool :=
  (List.range s.length).any fun i =>
    (List.range s.length).any fun j =>
      (List.range s.length).any fun k =>
        decide (i < j) && decide (j < k) &&
        isDigitRun (s.take i) &&
        (s.getD i 10 != 10) &&
        isDigitRun ((s.take j).drop (i + 1)) &&
        (s.getD j 10 != 10) &&
        isDigitRun ((s.take k).drop (j + 1)) &&
        (s.getD k 10 != 10) &&
        isDigitRun (s.drop (k + 1))

/-- One octet of Rust's `Ipv4Addr::from_str`: 1-3 decimal digits, no
leading zero (unless the octet is exactly `0`), value at most 255.
(Modelled from the Rust standard library.) -/
def parseIpv4Octet (l : List Nat) : Option Nat :=
  if isDigitRun l && decide (l.length ≤ 3) &&
      (decide (l.length = 1) || l.headI != 48) then
    if digitsVal l ≤ 255 then some (digitsVal l) else none
  else none

/-- Rust's `Ipv4Addr::from_str`: exactly four octets separated by `.`.
(Modelled from the Rust standard library.) -/
def parse_ipv4 (s : List Nat) : Option (Nat × Nat × Nat × Nat) :=
  match s.splitOn 46 with
  | [p1, p2, p3, p4] =>
    match parseIpv4Octet p1, parseIpv4Octet p2,
        parseIpv4Octet p3, parseIpv4Octet p4 with
    | some a, some b, some c, some d => some (a, b, c, d)
    | _, _, _, _ => none
  | _ => none

/-- The match of `regex_captures!(r"^\[([0-9a-f:]+)\]$"i, host_part)`:
a `[`, a non-empty run of hex digits and colons (captured), and a `]`. -/
def bracketInner (h : List Nat) : Option (List Nat) :=
  match h with
  | 91 :: rest =>
    if rest.getLast? == some 93 then
      let inner := rest.dropLast
      if !inner.isEmpty && inner.all isHexColon then some inner else none
    else none
  | _ => none

/-- One hex group of `Ipv6Addr::from_str`: 1-4 hex digits. -/
def parseHexGroup (l : List Nat) : Option Nat :=
  if !l.isEmpty && decide (l.length ≤ 4) && l.all isHexDigit then
    some (hexVal l)
  else none

/-- Index of the first occurrence of `::`. -/
def findDoubleColon : List Nat → Option Nat
  | 58 :: 58 :: _ => some 0
  | _ :: rest => (findDoubleColon rest).map (· + 1)
  | [] => none

def parseGroups (l : List Nat) : Option (List Nat) :=
  (l.splitOn 58).mapM parseHexGroup

/-- Rust's `Ipv6Addr::from_str`, restricted to the inputs the bracket
regex admits (hex digits and colons only): either exactly eight `:`
separated hex groups, or a single `::` standing for enough zero groups to
reach eight, with fewer than eight explicit groups.  (Modelled from the
Rust standard library.) -/
def parse_ipv6 (s : List Nat) : Option (List Nat) :=
  match findDoubleColon s with
  | none =>
    match parseGroups s with
    | some gs => if gs.length = 8 then some gs else none
    | none => none
  | some i =>
    let left := s.take i
    let right := s.drop (i + 2)
    if (findDoubleColon right).isSome then none
    else
      let leftGroups := if left.isEmpty then some [] else parseGroups left
      let rightGroups := if right.isEmpty then some [] else parseGroups right
      match leftGroups, rightGroups with
      | some lg, some rg =>
        if lg.length + rg.length < 8 then
          some (lg ++ List.replicate (8 - lg.length - rg.length) 0 ++ rg)
        else none
      | _, _ => none

/-- The match of `regex_is_match!(r"^[a-z0-9][-a-z0-9.]*$"i, host_part)`. -/
def matchesDns (h : List Nat) : Bool :=
  match h with
  | [] => false
  | c :: rest => isAlnum c && rest.all isDnsTail

/-- `impl TryFrom<&OsStr> for MonetAddr` from `src/proxy/network.rs`
(lines 73-131), over the byte encoding of the OS string (inputs are taken
to be ASCII; the only non-UTF-8-relevant step, `to_str`, is the identity
on that fragment).  Rules in source order: a `/` or `\` byte makes a Unix
path; a string parsing as `u16` is a bare port; otherwise the anchored
`(.+):(\d+)` regex must match, and the host part is tried as the sloppy
IPv4 pattern (then strict `Ipv4Addr` parsing, whose failure rejects the
whole address), as a bracketed IPv6 literal (idem), or as a DNS name;
`none` means the `TryFrom` returns the "invalid address" error. -/
def parse (os_value : List Nat) : Option MonetAddr :=
  if os_value.contains 47 || os_value.contains 92 then
    some (.Unix os_value)
  else
    match parse_u16 os_value with
    | some port => some (.PortOnly port)
    | none =>
      match splitHostPort os_value with
      | none => none
      | some (host_part, port_part) =>
        match parse_u16 port_part with
        | none => none
        | some port =>
          if matchesSloppyIpv4 host_part then
            match parse_ipv4 host_part with
            | some (a, b, c, d) => some (.Ip4 a b c d port)
            | none => none
          else
            match bracketInner host_part with
            | some inner =>
              match parse_ipv6 inner with
              | some groups => some (.Ip6 groups port)
              | none => none
            | none =>
              if matchesDns host_part then some (.Dns host_part port)
              else none

end Net

namespace Net

/-- **C9.** Evaluation of the address parser at the failing input
`"1x2y3z4:80"` (bytes below): the string has the `<host>:<digits>` shape
and its host `1x2y3z4` is a DNS label (it matches the DNS branch's
regex), so by the spec's rule (iii) it must parse as a TCP address.  The
code instead rejects it: because the IPv4 regex `^\d+.\d+.\d+.\d+$` has
unescaped dots, `1x2y3z4` enters the IPv4 branch, `Ipv4Addr` parsing
fails, and the whole parse returns the invalid-address error.  The other
conjuncts confirm the claimed rule order on representative inputs: a
path, a bare port, an IPv4 literal, a DNS host, a bracketed IPv6 literal,
and a rejected non-address. -/
theorem claim_address_parsing :
    -- the failing input "1x2y3z4:80"
    matchesDns [49, 120, 50, 121, 51, 122, 52] = true ∧
    splitHostPort [49, 120, 50, 121, 51, 122, 52, 58, 56, 48] =
      some ([49, 120, 50, 121, 51, 122, 52], [56, 48]) ∧
    matchesSloppyIpv4 [49, 120, 50, 121, 51, 122, 52] = true ∧
    parse_ipv4 [49, 120, 50, 121, 51, 122, 52] = none ∧
    parse [49, 120, 50, 121, 51, 122, 52, 58, 56, 48] = none ∧
    -- "/tmp/x" → Unix path (rule i)
    parse [47, 116, 109, 112, 47, 120] =
      some (.Unix [47, 116, 109, 112, 47, 120]) ∧
    -- "5000" → bare port (rule ii)
    parse [53, 48, 48, 48] = some (.PortOnly 5000) ∧
    -- "127.0.0.1:80" → IPv4 literal (rule iii)
    parse [49, 50, 55, 46, 48, 46, 48, 46, 49, 58, 56, 48] =
      some (.Ip4 127 0 0 1 80) ∧
    -- "db:80" → DNS host (rule iii)
    parse [100, 98, 58, 56, 48] = some (.Dns [100, 98] 80) ∧
    -- "[::1]:80" → bracketed IPv6 (rule iii)
    parse [91, 58, 58, 49, 93, 58, 56, 48] =
      some (.Ip6 [0, 0, 0, 0, 0, 0, 0, 1] 80) ∧
    -- "a:b" → rejected
    parse [97, 58, 98] = none := by
  decide

end Net
